import Mathlib

/-!
Verification of the text-understanding pipeline of the "Vô Romário" chatbot
(`src/main.py`, class `ChatbotVoRomario`).

The Python code is shallowly embedded as executable Lean definitions:

* Text is modeled as `String` (a list of Unicode characters).
* `str.lower`, Unicode NFD decomposition and the `Mn` character category are
  modeled on the character repertoire the chatbot works with (ASCII plus the
  accented letters of Portuguese); characters outside this repertoire pass
  through unchanged, exactly like unaccented ASCII does in the original.
* The NLTK Portuguese stopword list is external data (not part of the
  repository), so every definition that reads `self.stop_words` takes the
  stopword set as an explicit parameter `sw`.
* `nltk.word_tokenize` is applied only to already-normalized text, which
  contains no ASCII punctuation; on such text it behaves as whitespace
  splitting, which is how it is modeled (`wsTokens`).
* Python `dict`s whose keys map to `True` (the conversation context) are
  modeled as the list of keys that hold a truthy value; Python sets are
  modeled through duplicate-free lists (`List.dedup`).
-/

namespace Chatbot

/-! ### Normalizer (`normalize`, src/main.py lines 158-183) -/

/-- `str.lower`, modeled on ASCII `A`-`Z` plus the uppercase accented letters
used in Portuguese text; other characters are unchanged. -/
def lowerMap : List (Char × Char) :=
  [('A', 'a'), ('B', 'b'), ('C', 'c'), ('D', 'd'), ('E', 'e'), ('F', 'f'),
   ('G', 'g'), ('H', 'h'), ('I', 'i'), ('J', 'j'), ('K', 'k'), ('L', 'l'),
   ('M', 'm'), ('N', 'n'), ('O', 'o'), ('P', 'p'), ('Q', 'q'), ('R', 'r'),
   ('S', 's'), ('T', 't'), ('U', 'u'), ('V', 'v'), ('W', 'w'), ('X', 'x'),
   ('Y', 'y'), ('Z', 'z'),
   ('À', 'à'), ('Á', 'á'), ('Â', 'â'), ('Ã', 'ã'), ('Ç', 'ç'), ('É', 'é'),
   ('Ê', 'ê'), ('È', 'è'), ('Í', 'í'), ('Ì', 'ì'), ('Ó', 'ó'), ('Ô', 'ô'),
   ('Õ', 'õ'), ('Ò', 'ò'), ('Ú', 'ú'), ('Ù', 'ù'), ('Ü', 'ü')]

def pyLower (c : Char) : Char := (lowerMap.lookup c).getD c

/-- `string.punctuation` from the Python standard library: the ASCII
characters in the ranges 33-47, 58-64, 91-96 and 123-126. -/
def isPunct (c : Char) : Bool :=
  let n := c.toNat
  (33 ≤ n && n ≤ 47) || (58 ≤ n && n ≤ 64) || (91 ≤ n && n ≤ 96) ||
    (123 ≤ n && n ≤ 126)

/-- Combining marks (Unicode category `Mn`) produced by the decompositions in
`nfdMap`: grave, acute, circumflex, tilde, diaeresis, cedilla. -/
def marks : List Char :=
  [Char.ofNat 0x300, Char.ofNat 0x301, Char.ofNat 0x302, Char.ofNat 0x303,
   Char.ofNat 0x308, Char.ofNat 0x327]

def isMn (c : Char) : Bool := marks.contains c

/-- Unicode NFD decomposition, modeled on the lowercase accented letters of
Portuguese (the characters that can reach this step after `pyLower`). -/
def nfdMap : List (Char × List Char) :=
  [('à', ['a', Char.ofNat 0x300]), ('á', ['a', Char.ofNat 0x301]),
   ('â', ['a', Char.ofNat 0x302]), ('ã', ['a', Char.ofNat 0x303]),
   ('ç', ['c', Char.ofNat 0x327]), ('é', ['e', Char.ofNat 0x301]),
   ('ê', ['e', Char.ofNat 0x302]), ('è', ['e', Char.ofNat 0x300]),
   ('í', ['i', Char.ofNat 0x301]), ('ì', ['i', Char.ofNat 0x300]),
   ('ó', ['o', Char.ofNat 0x301]), ('ô', ['o', Char.ofNat 0x302]),
   ('õ', ['o', Char.ofNat 0x303]), ('ò', ['o', Char.ofNat 0x300]),
   ('ú', ['u', Char.ofNat 0x301]), ('ù', ['u', Char.ofNat 0x300]),
   ('ü', ['u', Char.ofNat 0x308])]

def nfd (c : Char) : List Char := (nfdMap.lookup c).getD [c]

/-- The body of `normalize`: lowercase, drop punctuation, decompose (NFD) and
drop all combining marks, in that order. -/
def normalizeChars (cs : List Char) : List Char :=
  (((cs.map pyLower).filter (fun c => !isPunct c)).flatMap nfd).filter
    (fun c => !isMn c)

/-- `ChatbotVoRomario.normalize`. -/
def normalize (s : String) : String := String.mk (normalizeChars s.data)

/-! ### Tokenizer / stopword filter (`preprocess_text`, lines 185-200) -/

/-- A regex `\w` character (the text handled by the chatbot is ASCII after
normalization). -/
def isWordChar (c : Char) : Bool := c.isAlphanum || c == '_'

def isWS (c : Char) : Bool := c.isWhitespace

/-- `re.findall(r'\w+', s)`: the maximal runs of word characters. -/
def reWordTokensAux : List Char → List Char → List String
  | [], acc => if acc.isEmpty then [] else [String.mk acc.reverse]
  | c :: cs, acc =>
    if isWordChar c then reWordTokensAux cs (c :: acc)
    else if acc.isEmpty then reWordTokensAux cs []
    else String.mk acc.reverse :: reWordTokensAux cs []

def reWordTokens (s : String) : List String := reWordTokensAux s.data []

/-- `nltk.word_tokenize` restricted to normalized (punctuation-free) text:
splitting on whitespace. -/
def wsTokensAux : List Char → List Char → List String
  | [], acc => if acc.isEmpty then [] else [String.mk acc.reverse]
  | c :: cs, acc =>
    if isWS c then
      (if acc.isEmpty then wsTokensAux cs []
       else String.mk acc.reverse :: wsTokensAux cs [])
    else wsTokensAux cs (c :: acc)

def wsTokens (s : String) : List String := wsTokensAux s.data []

/-- `ChatbotVoRomario.preprocess_text`; `sw` is the Portuguese stopword set
(external NLTK data, hence a parameter). -/
def preprocess_text (sw : List String) (text : String) : List String :=
  (wsTokens (normalize text)).filter (fun w => !sw.contains w)

/-! ### Normalizer lemmas (towards claim C7) -/

/-- A character that the whole normalization pipeline leaves alone. -/
def goodChar (c : Char) : Bool :=
  pyLower c == c && !isPunct c && nfd c == [c] && !isMn c

theorem lookup_mem {β : Type} (k : Char) (v : β) :
    ∀ l : List (Char × β), l.lookup k = some v → (k, v) ∈ l := by
  intro l
  induction l with
  | nil => intro h; simp [List.lookup] at h
  | cons p rest ih =>
    intro h
    obtain ⟨a, b⟩ := p
    simp only [List.lookup] at h
    split at h
    · next heq =>
      injection h with h
      have ha : k = a := eq_of_beq heq
      subst ha
      subst h
      exact List.mem_cons_self _ _
    · next => exact List.mem_cons_of_mem _ (ih h)

theorem pyLower_idem (c : Char) : pyLower (pyLower c) = pyLower c := by
  unfold pyLower
  cases h : lowerMap.lookup c with
  | none => simp [h]
  | some v =>
    simp only [h, Option.getD_some]
    have hv : (c, v) ∈ lowerMap := lookup_mem c v lowerMap h
    have hall : lowerMap.all (fun p => (lowerMap.lookup p.2).isNone) = true := by decide
    rw [List.all_eq_true] at hall
    have hvnone := hall (c, v) hv
    simp only [Option.isNone_iff_eq_none] at hvnone
    simp [hvnone]

theorem pyLower_good (c : Char) :
    ∀ d ∈ nfd (pyLower c), isPunct (pyLower c) = false → isMn d = false →
      goodChar d = true := by
  intro d hd hpunct hmn
  unfold nfd at hd
  cases h : nfdMap.lookup (pyLower c) with
  | some dec =>
    rw [h] at hd
    simp only [Option.getD_some] at hd
    have hmem : (pyLower c, dec) ∈ nfdMap := lookup_mem _ dec nfdMap h
    have hall : nfdMap.all (fun p => p.2.all (fun e => isMn e || goodChar e)) = true := by
      decide
    rw [List.all_eq_true] at hall
    have h2 := hall _ hmem
    rw [List.all_eq_true] at h2
    have h3 := h2 d hd
    simp only [Bool.or_eq_true] at h3
    cases h3 with
    | inl h3 => rw [h3] at hmn; exact absurd hmn (by simp)
    | inr h3 => exact h3
  | none =>
    rw [h] at hd
    simp only [Option.getD_none, List.mem_singleton] at hd
    subst hd
    unfold goodChar
    have h1 : pyLower (pyLower c) = pyLower c := pyLower_idem c
    unfold nfd
    simp [h1, hpunct, hmn, h]

theorem normalizeChars_good (cs : List Char) :
    ∀ d ∈ normalizeChars cs, goodChar d = true := by
  intro d hd
  unfold normalizeChars at hd
  rw [List.mem_filter] at hd
  obtain ⟨hbind, hmn⟩ := hd
  rw [List.mem_flatMap] at hbind
  obtain ⟨b, hb, hdb⟩ := hbind
  rw [List.mem_filter] at hb
  obtain ⟨hbmap, hbpunct⟩ := hb
  rw [List.mem_map] at hbmap
  obtain ⟨a, _, rfl⟩ := hbmap
  apply pyLower_good a d hdb
  · simpa using hbpunct
  · simpa using hmn

theorem normalizeChars_fixed (cs : List Char)
    (h : ∀ d ∈ cs, goodChar d = true) : normalizeChars cs = cs := by
  induction cs with
  | nil => rfl
  | cons c rest ih =>
    have hc := h c (List.mem_cons_self c rest)
    unfold goodChar at hc
    simp only [Bool.and_eq_true, beq_iff_eq, Bool.not_eq_true'] at hc
    obtain ⟨⟨⟨hlow, hpunct⟩, hnfd⟩, hmn⟩ := hc
    have hrest : normalizeChars rest = rest :=
      ih (fun d hd => h d (List.mem_cons_of_mem _ hd))
    unfold normalizeChars at hrest ⊢
    simp [hlow, hpunct, hnfd, hmn, hrest]

/-- Claim C7 core: the character-level pipeline is idempotent. -/
theorem normalizeChars_idem (cs : List Char) :
    normalizeChars (normalizeChars cs) = normalizeChars cs :=
  normalizeChars_fixed _ (normalizeChars_good cs)

/-- **C7.** Normalization is idempotent: for every text `x`,
`normalize (normalize x) = normalize x`, where `normalize` lowercases,
removes punctuation characters, and removes all combining/diacritical marks
after canonical decomposition. -/
theorem normalize_idempotent (x : String) :
    normalize (normalize x) = normalize x := by
  unfold normalize
  exact congrArg String.mk (normalizeChars_idem x.data)

example : normalize "Bolo de Maçã!" = "bolo de maca" := by rfl
example : preprocess_text ["de"] "Bolo de Maçã!" = ["bolo", "maca"] := by rfl

/-! ### Flavor index (`build_flavor_index`, lines 205-255)

`re.search(r'\bbolos?\s+de\s+(.+)', norm_name)` is embedded as `boloSearch`:
scan positions left to right, at each word boundary try to match the literal
`bolo`, an optional `s`, one or more whitespace characters, `de`, one or more
whitespace characters and a nonempty greedy `(.+)` run (which stops at a
newline; the backtracking between the second `\s+` and `(.+)` is reproduced
in `backtrackDot`). -/

/-- Backtracking for `\s+(.+)` when everything after `de` is whitespace:
`\s+` gives back characters until `(.+)` can start on a non-newline one. -/
def backtrackDot (w : List Char) : Option (List Char) :=
  match ((List.range w.length).filter
      (fun k => 0 < k && w.getD k '\n' != '\n')).getLast? with
  | some k => some ((w.drop k).takeWhile (fun c => c != '\n'))
  | none => none

/-- Try to match `bolos?\s+de\s+(.+)` at the head of `cs`, returning the
text captured by `(.+)`. -/
def boloMatchHere (cs : List Char) : Option (List Char) :=
  match cs with
  | 'b' :: 'o' :: 'l' :: 'o' :: rest =>
    let rest1 := match rest with
      | 's' :: r => r
      | r => r
    let w1 := rest1.takeWhile isWS
    let r1 := rest1.dropWhile isWS
    if w1.isEmpty then none
    else
      match r1 with
      | 'd' :: 'e' :: r2 =>
        let w2 := r2.takeWhile isWS
        let r3 := r2.dropWhile isWS
        if w2.isEmpty then none
        else if r3.isEmpty then backtrackDot w2
        else some (r3.takeWhile (fun c => c != '\n'))
      | _ => none
  | _ => none

def boloSearchAux : Option Char → List Char → Option (List Char)
  | _, [] => none
  | prev, c :: cs =>
    let bOk := match prev with
      | none => true
      | some p => !isWordChar p
    match (if bOk then boloMatchHere (c :: cs) else none) with
    | some g => some g
    | none => boloSearchAux (some c) cs

/-- `re.search(r'\bbolos?\s+de\s+(.+)', s)`, returning group 1. -/
def boloSearch (s : String) : Option String :=
  (boloSearchAux none s.data).map (fun l => String.mk l)

/-- Python `str.strip()`: remove leading and trailing whitespace. -/
def pyStrip (s : String) : String :=
  String.mk (((s.data.dropWhile isWS).reverse.dropWhile isWS).reverse)

/-- A catalog product. Only the name is read by `build_flavor_index`; the
price feeds the rendered menu text, which no claim touches. -/
structure Product where
  nome : String
deriving Repr, DecidableEq

/-- One `flavor_index` entry: `{'original': ..., 'phrase': ..., 'keywords':
set(...)}`. The Python keyword set is modeled as a duplicate-free list. -/
structure FlavorEntry where
  original : String
  phrase : String
  keywords : List String
deriving Repr, DecidableEq

/-- `ChatbotVoRomario.build_flavor_index`. -/
def build_flavor_index (sw : List String) (products : List Product) :
    List FlavorEntry :=
  products.map (fun p =>
    let norm_name := normalize p.nome
    let phrase := match boloSearch norm_name with
      | some g => pyStrip g
      | none => norm_name
    let tokens := (reWordTokens phrase).filter
      (fun t => !sw.contains t && t != "bolo" && t != "bolos")
    ⟨p.nome, phrase, tokens.dedup⟩)

example : boloSearch "bolo de maca" = some "maca" := by rfl
example : boloSearch "torta da casa" = none := by rfl
example :
    build_flavor_index ["de"] [⟨"Bolo de Maçã"⟩, ⟨"Bolo de Doce de Leite"⟩] =
      [⟨"Bolo de Maçã", "maca", ["maca"]⟩,
       ⟨"Bolo de Doce de Leite", "doce de leite", ["doce", "leite"]⟩] := by rfl

/-! ### Quantity extractor (`extrair_quantidade`, lines 260-322) -/

/-- `\b` after a pattern: the rest of the text starts with a non-word
character or is empty. -/
def noWordHead : List Char → Bool
  | [] => true
  | c :: _ => !isWordChar c

/-- Does `s` start with the characters `p`? -/
def startsWith : List Char → List Char → Bool
  | [], _ => true
  | _ :: _, [] => false
  | p :: ps, c :: cs => p == c && startsWith ps cs

/-- Scan the text and test matcher `m` at every position that is a word
boundary (all patterns used begin with a word character, so a boundary is a
non-word predecessor or the start of the text). -/
def boundaryAny (m : List Char → Bool) : Option Char → List Char → Bool
  | _, [] => false
  | prev, c :: cs =>
    let bOk := match prev with
      | none => true
      | some p => !isWordChar p
    (bOk && m (c :: cs)) || boundaryAny m (some c) cs

/-- The tail `\s+d[uú]zia\b` shared by the two dozen idioms. -/
def matchDuziaTail (cs : List Char) : Bool :=
  let w := cs.takeWhile isWS
  let r := cs.dropWhile isWS
  !w.isEmpty &&
    match r with
    | 'd' :: u :: 'z' :: 'i' :: 'a' :: rest =>
      (u == 'u' || u == 'ú') && noWordHead rest
    | _ => false

/-- `re.search(r'\bmeia\s+d[uú]zia\b', s)` as a Boolean. -/
def meiaDuzia (s : String) : Bool :=
  boundaryAny
    (fun cs =>
      match cs with
      | 'm' :: 'e' :: 'i' :: 'a' :: rest => matchDuziaTail rest
      | _ => false)
    none s.data

/-- `re.search(r'\b(um|uma)\s+d[uú]zia\b', s)` as a Boolean (the alternation
tries `um` first and falls back to `uma`). -/
def umaDuzia (s : String) : Bool :=
  boundaryAny
    (fun cs =>
      match cs with
      | 'u' :: 'm' :: rest =>
        matchDuziaTail rest ||
          (match rest with
           | 'a' :: rest2 => matchDuziaTail rest2
           | _ => false)
      | _ => false)
    none s.data

/-- The `\b` test before a word-initial pattern: start of text or a non-word
predecessor. -/
def boundaryOk : Option Char → Bool
  | none => true
  | some p => !isWordChar p

/-- One attempt of `\b(\d{1,2})\b` at the current position: `c` is the
character there, `cs` the rest of the text. -/
def digitHere (prev : Option Char) (c : Char) (cs : List Char) :
    Option String :=
  if boundaryOk prev && c.isDigit then
    match cs with
    | [] => some (String.mk [c])
    | d :: rest =>
      if d.isDigit then
        match rest with
        | [] => some (String.mk [c, d])
        | e :: _ =>
          if isWordChar e then none else some (String.mk [c, d])
      else if isWordChar d then none
      else some (String.mk [c])
  else none

/-- `re.search(r'\b(\d{1,2})\b', s)`: the first standalone run of exactly one
or two digits, returned as the matched group. -/
def digitGroupAux : Option Char → List Char → Option String
  | _, [] => none
  | prev, c :: cs =>
    match digitHere prev c cs with
    | some g => some g
    | none => digitGroupAux (some c) cs

def digitGroupSearch (s : String) : Option String := digitGroupAux none s.data

/-- Base-10 value of a digit string. -/
def natOfDigits (s : String) : Nat :=
  s.data.foldl (fun a c => a * 10 + (c.toNat - 48)) 0

/-- Python `int(...)` restricted to the digit strings it receives here:
`none` models a raised `ValueError`. -/
def pyInt? (s : String) : Option Nat :=
  if !s.data.isEmpty && s.data.all Char.isDigit then some (natOfDigits s)
  else none

/-- The `num_words` table of `extrair_quantidade`, in its source (insertion)
order. -/
def num_words : List (String × Nat) :=
  [("um", 1), ("uma", 1), ("dois", 2), ("duas", 2), ("tres", 3),
   ("quatro", 4), ("cinco", 5), ("seis", 6), ("sete", 7), ("oito", 8),
   ("nove", 9), ("dez", 10), ("onze", 11), ("doze", 12), ("treze", 13),
   ("quatorze", 14), ("catore", 14), ("quinze", 15), ("dezesseis", 16),
   ("dezessete", 17), ("dezoito", 18), ("dezenove", 19), ("vinte", 20)]

/-- `re.search(fr'\b{w}\b', s)` for a word `w`, as a Boolean. -/
def wholeWord (w : String) (s : String) : Bool :=
  boundaryAny
    (fun cs => startsWith w.data cs && noWordHead (cs.drop w.data.length))
    none s.data

/-- `ChatbotVoRomario.extrair_quantidade`. The `try/except ValueError` around
`int(...)` appears as the fall-through when `pyInt?` is `none`. -/
def extrair_quantidade (t : String) : Option Nat :=
  if meiaDuzia t then some 6
  else if umaDuzia t then some 12
  else
    let viaDigits : Option Nat :=
      match digitGroupSearch t with
      | some g => pyInt? g
      | none => none
    match viaDigits with
    | some n => some n
    | none => (num_words.find? (fun p => wholeWord p.1 t)).map (fun p => p.2)

/-- `extrair_quantidade` with the one fallible operation (`int(...)`) made
explicit in the `Except` monad; `.error` models an uncaught exception. -/
def pyIntExc (s : String) : Except String Nat :=
  match pyInt? s with
  | some n => .ok n
  | none => .error "ValueError"

def extrair_quantidade_exc (t : String) : Except String (Option Nat) :=
  if meiaDuzia t then .ok (some 6)
  else if umaDuzia t then .ok (some 12)
  else
    let step3 : Except String (Option Nat) :=
      match digitGroupSearch t with
      | some g =>
        match pyIntExc g with
        | .ok n => .ok (some n)
        | .error e => if e = "ValueError" then .ok none else .error e
      | none => .ok none
    match step3 with
    | .ok (some n) => .ok (some n)
    | .ok none =>
      .ok ((num_words.find? (fun p => wholeWord p.1 t)).map (fun p => p.2))
    | .error e => .error e

example : extrair_quantidade "quero meia duzia de bolos" = some 6 := by rfl
example : extrair_quantidade "quero uma duzia" = some 12 := by rfl
example : extrair_quantidade "quero 12 bolos" = some 12 := by rfl
example : extrair_quantidade "dez" = some 10 := by rfl
example : extrair_quantidade "ola tudo bem" = none := by rfl
example : extrair_quantidade "tres bolos" = some 3 := by rfl
example : extrair_quantidade "sabor123" = none := by rfl

/-! ### Flavor extractor (`extrair_sabor`, lines 324-365) -/

/-- Python `p in s` for strings: `p` occurs as a contiguous substring. -/
def occursIn (p : List Char) : List Char → Bool
  | [] => p.isEmpty
  | c :: cs => startsWith p (c :: cs) || occursIn p cs

def strContains (s p : String) : Bool := occursIn p.data s.data

/-- The result dictionary `{'produto': ..., 'sabor': ...}`. -/
structure SaborInfo where
  produto : String
  sabor : String
deriving Repr, DecidableEq

/-- The score the loop body of `extrair_sabor` computes for one entry, with
the Python truthiness guards (`if item['phrase']`, `if item['keywords']`)
kept; `tokens` is `set(re.findall(r'\w+', text_norm))`. -/
def saborScoreSrc (item : FlavorEntry) (t : String) (tokens : List String) :
    Nat :=
  (if !item.phrase.isEmpty && strContains t item.phrase
   then item.phrase.length else 0) +
  (if !item.keywords.isEmpty
   then (item.keywords.dedup.filter (fun k => tokens.contains k)).length * 3
   else 0)

/-- The `best`/`best_score` loop of `extrair_sabor` (strict `>` update). -/
def saborLoop (t : String) (tokens : List String) :
    List FlavorEntry → Option FlavorEntry → Nat → Option FlavorEntry × Nat
  | [], best, bs => (best, bs)
  | item :: rest, best, bs =>
    let sc := saborScoreSrc item t tokens
    if bs < sc then saborLoop t tokens rest (some item) sc
    else saborLoop t tokens rest best bs

/-- `ChatbotVoRomario.extrair_sabor`. -/
def extrair_sabor (idx : List FlavorEntry) (t : String) : Option SaborInfo :=
  let tokens := (reWordTokens t).dedup
  match saborLoop t tokens idx none 0 with
  | (some best, bs) =>
    if 0 < bs then some ⟨best.original, best.phrase⟩ else none
  | (none, _) => none

/-- The score as the specification words it: the character length of the
phrase when it occurs as a contiguous substring of the input, plus three
times the number of entry keywords among the word tokens of the input. -/
def saborScore (item : FlavorEntry) (t : String) : Nat :=
  (if strContains t item.phrase then item.phrase.length else 0) +
  3 * (item.keywords.dedup.filter
        (fun k => ((reWordTokens t).dedup).contains k)).length

/-! ### Order extractor (`extrair_pedido`, lines 367-394) -/

/-- An order draft: the dictionary built by `extrair_pedido`, whose keys
`'quantidade'`, `'produto'` and `'sabor'` are present only when found. -/
structure Pedido where
  quantidade : Option Nat
  produto : Option String
  sabor : Option String
deriving Repr, DecidableEq

/-- `ChatbotVoRomario.extrair_pedido`. -/
def extrair_pedido (idx : List FlavorEntry) (frase : String) : Option Pedido :=
  let text_norm := normalize frase
  let qtd := extrair_quantidade text_norm
  let sabor_info := extrair_sabor idx text_norm
  if qtd.isNone && sabor_info.isNone then none
  else
    some ⟨qtd, sabor_info.map (fun s => s.produto),
      sabor_info.map (fun s => s.sabor)⟩

/-- `extrair_pedido` in the `Except` monad (claim C8): the only fallible
operation in the three extractors is the `int(...)` call inside
`extrair_quantidade`; `extrair_sabor` is total (its dictionary accesses hit
keys that `build_flavor_index` always populates). -/
def extrair_pedido_exc (idx : List FlavorEntry) (frase : String) :
    Except String (Option Pedido) :=
  let text_norm := normalize frase
  match extrair_quantidade_exc text_norm with
  | .error e => .error e
  | .ok qtd =>
    let sabor_info := extrair_sabor idx text_norm
    if qtd.isNone && sabor_info.isNone then .ok none
    else
      .ok (some ⟨qtd, sabor_info.map (fun s => s.produto),
        sabor_info.map (fun s => s.sabor)⟩)

def bfiDemo : List FlavorEntry :=
  build_flavor_index ["de"] [⟨"Bolo de Chocolate"⟩, ⟨"Bolo de Doce de Leite"⟩]

example :
    extrair_sabor bfiDemo "quero um bolo de chocolate" =
      some ⟨"Bolo de Chocolate", "chocolate"⟩ := by rfl
example : extrair_sabor bfiDemo "oi tudo bem" = none := by rfl
example :
    extrair_pedido bfiDemo "quero 6 bolos de chocolate" =
      some ⟨some 6, some "Bolo de Chocolate", some "chocolate"⟩ := by rfl
example :
    extrair_pedido bfiDemo "quero 3 unidades" =
      some ⟨some 3, none, none⟩ := by rfl
example : extrair_pedido bfiDemo "oi tudo bem" = none := by rfl

/-! ### Dialogue engine (`get_response`, lines 433-473) -/

/-- An intent record. `context_filter`/`context_set` are `none` when the JSON
key is absent; Python treats an absent key, `None` and an empty list
identically (all falsy), which the truthiness test `listTruthy` reproduces. -/
structure Intent where
  tag : String
  patterns : List String
  responses : List String
  context_filter : Option (List String) := none
  context_set : Option (List String) := none
deriving Repr, DecidableEq

/-- The conversation context: the set of flag names currently holding a
truthy value, as a list of keys (`self.context`). -/
abbrev Ctx := List String

/-- Python truthiness of `intent.get('context_filter')` /
`intent.get('context_set')`. -/
def listTruthy : Option (List String) → Bool
  | none => false
  | some l => !l.isEmpty

def optFlags (o : Option (List String)) : List String := o.getD []

/-- The `continue` guard: an intent is skipped when it has a truthy
`context_filter` and some named flag is not truthy in the context. -/
def intentEligible (ctx : Ctx) (i : Intent) : Bool :=
  !(listTruthy i.context_filter &&
    !((optFlags i.context_filter).all (fun c => ctx.contains c)))

/-- The match test: some token of the preprocessed concatenation of the
intent's patterns occurs among the preprocessed input tokens. -/
def intentMatches (sw : List String) (processed_input : List String)
    (i : Intent) : Bool :=
  (preprocess_text sw (String.intercalate " " i.patterns)).any
    (fun w => processed_input.contains w)

/-- `self.context = {k: True for k in intent['context_set']}` when
`context_set` is truthy; otherwise the context is left alone. -/
def applyContextSet (ctx : Ctx) (i : Intent) : Ctx :=
  if listTruthy i.context_set then optFlags i.context_set else ctx

def lbrace : Char := Char.ofNat 123
def rbrace : Char := Char.ofNat 125

/-- `str.format(**data)` for the template fragment the chatbot uses: literal
text, `\x7b\x7b`/`\x7d\x7d` escapes and named replacement fields. A field
naming a key absent from `data` raises `KeyError`; a stray single brace
raises `ValueError` (both are `.error`). Format specs (`:`/`!`) are not
modeled; the chatbot's templates do not use them. -/
def formatAux (data : List (String × String)) :
    List Char → Option (List Char) → List Char → Except String (List Char)
  | [], none, acc => .ok acc.reverse
  | [], some _, _ => .error "ValueError: unterminated replacement field"
  | [c], none, acc =>
    if c = lbrace then .error "ValueError: single brace"
    else if c = rbrace then .error "ValueError: single brace"
    else .ok (c :: acc).reverse
  | c :: d :: cs, none, acc =>
    if c = lbrace then
      (if d = lbrace then formatAux data cs none (lbrace :: acc)
       else formatAux data (d :: cs) (some []) acc)
    else if c = rbrace then
      (if d = rbrace then formatAux data cs none (rbrace :: acc)
       else .error "ValueError: single brace")
    else formatAux data (d :: cs) none (c :: acc)
  | c :: cs, some kacc, acc =>
    if c = rbrace then
      match data.lookup (String.mk kacc.reverse) with
      | some v => formatAux data cs none (v.data.reverse ++ acc)
      | none => .error (String.append "KeyError: " (String.mk kacc.reverse))
    else formatAux data cs (some (c :: kacc)) acc

def pyFormat (tpl : String) (data : List (String × String)) :
    Except String String :=
  (formatAux data tpl.data none []).map (fun l => String.mk l)

/-- The replacement-field keys a template references, in order; `none` when
the template is malformed (brace errors). Mirrors `formatAux` but ignores
the data mapping. -/
def refKeysAux : List Char → Option (List Char) → List String →
    Option (List String)
  | [], none, ks => some ks.reverse
  | [], some _, _ => none
  | [c], none, ks =>
    if c = lbrace then none
    else if c = rbrace then none
    else some ks.reverse
  | c :: d :: cs, none, ks =>
    if c = lbrace then
      (if d = lbrace then refKeysAux cs none ks
       else refKeysAux (d :: cs) (some []) ks)
    else if c = rbrace then
      (if d = rbrace then refKeysAux cs none ks
       else none)
    else refKeysAux (d :: cs) none ks
  | c :: cs, some kacc, ks =>
    if c = rbrace then refKeysAux cs none (String.mk kacc.reverse :: ks)
    else refKeysAux cs (some (c :: kacc)) ks

def refKeys (tpl : String) : Option (List String) :=
  refKeysAux tpl.data none []

def fallbackMsg : String := "Desculpe, não entendi."

/-- The intent scan of `get_response`. `choose` stands for `random.choice`
over the intent's response list; the state returned alongside the result is
`self.context` after the call. The `if self.context.get('comprar')` branch
of the source only prints debug output, so it has no effect here. -/
def get_response_loop (sw : List String) (data : List (String × String))
    (choose : List String → String) (processed_input : List String)
    (ctx : Ctx) : List Intent → Except String String × Ctx
  | [] => (.ok fallbackMsg, ctx)
  | i :: rest =>
    if !intentEligible ctx i then
      get_response_loop sw data choose processed_input ctx rest
    else if intentMatches sw processed_input i then
      let ctx2 := applyContextSet ctx i
      (pyFormat (choose i.responses) data, ctx2)
    else get_response_loop sw data choose processed_input ctx rest

/-- `ChatbotVoRomario.get_response`. -/
def get_response (sw : List String) (intents : List Intent)
    (data : List (String × String)) (choose : List String → String)
    (ctx : Ctx) (user_input : String) : Except String String × Ctx :=
  get_response_loop sw data choose (preprocess_text sw user_input) ctx intents

/-- A deterministic stand-in for `random.choice` used in concrete runs. -/
def chooseHead (l : List String) : String := l.headD ""

def demoIntents : List Intent :=
  [⟨"apresentacao", ["ola", "oi"], ["Olá! {menu}"], none, none⟩,
   ⟨"comprar", ["quero", "comprar"], ["Certo!"], none, some ["comprar"]⟩,
   ⟨"confirmar", ["sim"], ["Confirmado"], some ["comprar"], some ["desligar"]⟩]

def demoData : List (String × String) := [("menu", "MENU")]

example :
    get_response [] demoIntents demoData chooseHead [] "oi" =
      (.ok "Olá! MENU", []) := by rfl
example :
    get_response [] demoIntents demoData chooseHead [] "sim" =
      (.ok fallbackMsg, []) := by rfl
example :
    get_response [] demoIntents demoData chooseHead [] "quero comprar" =
      (.ok "Certo!", ["comprar"]) := by rfl
example :
    get_response [] demoIntents demoData chooseHead ["comprar"] "sim" =
      (.ok "Confirmado", ["desligar"]) := by rfl
example :
    get_response [] demoIntents [] chooseHead [] "oi" =
      (.error "KeyError: menu", []) := by rfl

/-! ### Claim C6: the order extractor composes the two entity extractors -/

/-- **C6.** `extrair_pedido` normalizes the text once and applies both
extractors to the same normalized text; it returns nothing iff both return
nothing; otherwise the draft carries the quantity field exactly when a
quantity was found and the product/flavor fields exactly when a flavor match
was found, absent fields staying absent. -/
theorem extrair_pedido_spec : ∀ idx frase,
    (extrair_pedido idx frase = none ↔
      extrair_quantidade (normalize frase) = none ∧
      extrair_sabor idx (normalize frase) = none) ∧
    (∀ p, extrair_pedido idx frase = some p →
      p.quantidade = extrair_quantidade (normalize frase) ∧
      p.produto =
        (extrair_sabor idx (normalize frase)).map (fun s => s.produto) ∧
      p.sabor = (extrair_sabor idx (normalize frase)).map (fun s => s.sabor) ∧
      (p.quantidade.isSome ↔
        (extrair_quantidade (normalize frase)).isSome) ∧
      ((p.produto.isSome ∧ p.sabor.isSome) ↔
        (extrair_sabor idx (normalize frase)).isSome)) := by
  intro idx frase
  constructor
  · unfold extrair_pedido
    cases hq : extrair_quantidade (normalize frase) <;>
      cases hs : extrair_sabor idx (normalize frase) <;> simp [hq, hs]
  · intro p hp
    unfold extrair_pedido at hp
    cases hq : extrair_quantidade (normalize frase) with
    | none =>
      cases hs : extrair_sabor idx (normalize frase) with
      | none => simp [hq, hs] at hp
      | some v =>
        simp [hq, hs] at hp
        subst hp
        simp [hq, hs]
    | some n =>
      cases hs : extrair_sabor idx (normalize frase) with
      | none =>
        simp [hq, hs] at hp
        subst hp
        simp [hq, hs]
      | some v =>
        simp [hq, hs] at hp
        subst hp
        simp [hq, hs]

/-- Witness for C6 at a concrete catalog and utterance: no quantity cue and
no flavor match yields no draft. -/
theorem extrair_pedido_spec_witness :
    extrair_pedido bfiDemo "oi tudo bem" = none :=
  (extrair_pedido_spec bfiDemo "oi tudo bem").1.mpr ⟨by rfl, by rfl⟩

/-! ### Claim C8: the extractors signal "nothing found" via `none`, never by
raising -/

/-- **C8.** For every input text, the per-utterance extraction functions
terminate without raising: the `Except`-instrumented versions (where the
`int(...)` call may raise `ValueError`) always return `.ok` of the value of
the total functions, so "nothing found" is reported only through `none`.
(`extrair_sabor` appears through `extrair_pedido`: it performs no fallible
operation at all.) -/
theorem extractors_never_raise : ∀ t idx frase,
    extrair_quantidade_exc t = .ok (extrair_quantidade t) ∧
    extrair_pedido_exc idx frase = .ok (extrair_pedido idx frase) := by
  have hq : ∀ t, extrair_quantidade_exc t = .ok (extrair_quantidade t) := by
    intro t
    unfold extrair_quantidade_exc extrair_quantidade
    by_cases h1 : meiaDuzia t
    · simp [h1]
    · by_cases h2 : umaDuzia t
      · simp [h1, h2]
      · simp only [h1, h2, if_false]
        cases hd : digitGroupSearch t with
        | none => simp [hd]
        | some g =>
          unfold pyIntExc
          cases hp : pyInt? g with
          | none => simp [hd, hp]
          | some n => simp [hd, hp]
  intro t idx frase
  refine ⟨hq t, ?_⟩
  unfold extrair_pedido_exc extrair_pedido
  simp only [hq]
  by_cases h : ((extrair_quantidade (normalize frase)).isNone &&
      (extrair_sabor idx (normalize frase)).isNone) = true
  · simp [h]
  · simp [h]

/-! ### Dialogue-engine lemmas and claims C3, C4 -/

/-- The intent scan is first-match-wins: it behaves as `List.find?` over the
conjunction of the context gate and the bag-of-words match. -/
theorem get_response_loop_eq_find (sw : List String)
    (data : List (String × String)) (choose : List String → String)
    (pin : List String) (ctx : Ctx) :
    ∀ intents : List Intent,
      get_response_loop sw data choose pin ctx intents =
        (match intents.find?
            (fun i => intentEligible ctx i && intentMatches sw pin i) with
         | none => (.ok fallbackMsg, ctx)
         | some i => (pyFormat (choose i.responses) data,
             applyContextSet ctx i)) := by
  intro intents
  induction intents with
  | nil => rfl
  | cons i rest ih =>
    simp only [get_response_loop]
    by_cases he : intentEligible ctx i
    · by_cases hm : intentMatches sw pin i
      · rw [List.find?_cons_of_pos _ (by simp [he, hm])]
        simp [he, hm]
      · rw [List.find?_cons_of_neg _ (by simp [hm])]
        simp [he, hm, ih]
    · rw [List.find?_cons_of_neg _ (by simp [he])]
      simp [he, ih]

/-- **C4.** `get_response` scans intents in catalog order, skipping any
intent whose `context_filter` names a flag not currently truthy; an intent
matches exactly when some token of the preprocessed concatenation of its
patterns occurs among the preprocessed input tokens; the first match's
(rendered) response is returned, and when nothing matches the fixed fallback
message is returned with the context untouched. -/
theorem get_response_spec : ∀ (sw : List String) (intents : List Intent)
    (data : List (String × String)) (choose : List String → String)
    (ctx : Ctx) (input : String),
    get_response sw intents data choose ctx input =
      (match intents.find? (fun i => intentEligible ctx i &&
          intentMatches sw (preprocess_text sw input) i) with
       | none => (.ok fallbackMsg, ctx)
       | some i => (pyFormat (choose i.responses) data,
           applyContextSet ctx i)) ∧
    (∀ i, intentMatches sw (preprocess_text sw input) i = true ↔
      ∃ w, w ∈ preprocess_text sw (String.intercalate " " i.patterns) ∧
        w ∈ preprocess_text sw input) ∧
    (∀ i, intentEligible ctx i = false ↔
      (listTruthy i.context_filter = true ∧
        ∃ c ∈ optFlags i.context_filter, c ∉ ctx)) := by
  intro sw intents data choose ctx input
  refine ⟨get_response_loop_eq_find sw data choose _ ctx intents, ?_, ?_⟩
  · intro i
    unfold intentMatches
    rw [List.any_eq_true]
    constructor
    · rintro ⟨w, hw, hcont⟩
      exact ⟨w, hw, by simpa using hcont⟩
    · rintro ⟨w, hw, hmem⟩
      exact ⟨w, hw, by simpa using hmem⟩
  · intro i
    unfold intentEligible
    cases hT : listTruthy i.context_filter with
    | false => simp [hT]
    | true =>
      cases hA : (optFlags i.context_filter).all (fun c => ctx.contains c) with
      | true =>
        simp only [hT, hA, Bool.not_true, Bool.and_false, Bool.not_false]
        rw [List.all_eq_true] at hA
        constructor
        · intro h
          exact absurd h (by simp)
        · rintro ⟨_, c, hc, hmem⟩
          exact absurd (List.elem_iff.mp (hA c hc)) hmem
      | false =>
        simp only [hT, hA, Bool.not_false, Bool.and_true, Bool.not_true]
        rw [List.all_eq_false] at hA
        obtain ⟨c, hc, hcc⟩ := hA
        constructor
        · intro _
          refine ⟨by trivial, c, hc, fun hmem => ?_⟩
          exact hcc (List.elem_iff.mpr hmem)
        · intro _
          trivial

/-- **C3.** When the first matching intent declares a truthy `context_set`,
the whole context is replaced: afterwards exactly the `context_set` flags
are present, and every previously-true flag not named there (an in-progress
order draft included) is gone. -/
theorem context_set_replaces (sw : List String) (intents : List Intent)
    (data : List (String × String)) (choose : List String → String)
    (ctx : Ctx) (input : String) (i : Intent)
    (hfind : intents.find? (fun j => intentEligible ctx j &&
      intentMatches sw (preprocess_text sw input) j) = some i)
    (hset : listTruthy i.context_set = true) :
    (∀ f, f ∈ (get_response sw intents data choose ctx input).2 ↔
      f ∈ optFlags i.context_set) ∧
    (∀ f, f ∈ ctx → f ∉ optFlags i.context_set →
      f ∉ (get_response sw intents data choose ctx input).2) := by
  have h := get_response_loop_eq_find sw data choose
    (preprocess_text sw input) ctx intents
  have h2 : (get_response sw intents data choose ctx input).2 =
      optFlags i.context_set := by
    unfold get_response
    rw [h, hfind]
    simp [applyContextSet, hset]
  rw [h2]
  exact ⟨fun f => Iff.rfl, fun f _ hf => hf⟩

def c3Intents : List Intent :=
  [⟨"comprar", ["quero"], ["Certo!"], none, some ["comprar"]⟩]

/-- Witness for C3: with a stashed flag `"pedido"` in the context, matching
the intent that sets `{"comprar"}` drops the stashed flag. -/
theorem context_set_replaces_witness :
    "pedido" ∉ (get_response [] c3Intents [] chooseHead ["pedido"] "quero").2 :=
  (context_set_replaces [] c3Intents [] chooseHead ["pedido"] "quero"
      ⟨"comprar", ["quero"], ["Certo!"], none, some ["comprar"]⟩
      (by rfl) (by rfl)).2 "pedido" (by decide) (by decide)

/-! ### Claims C9, C10: template rendering errors -/

/-- If rendering succeeds, every key the template references resolves in the
data mapping: `formatAux` never skips over a missing key. -/
theorem formatAux_ok_keys (data : List (String × String)) :
    ∀ (cs : List Char) (mode : Option (List Char)) (acc : List Char),
      ∀ ks res s, formatAux data cs mode acc = .ok s →
        refKeysAux cs mode ks = some res →
        ∀ k, k ∈ res → k ∈ ks ∨ (data.lookup k).isSome = true := by
  intro cs mode acc
  induction cs, mode, acc using formatAux.induct data with
  | case1 acc =>
    intro ks res s _ hr k hk
    have er : refKeysAux [] none ks = some ks.reverse := rfl
    rw [er] at hr
    injection hr with hr
    subst hr
    exact Or.inl (by simpa using hk)
  | case2 val x =>
    intro ks res s hf _ k _
    have ef : formatAux data [] (some val) x =
        .error "ValueError: unterminated replacement field" := rfl
    rw [ef] at hf
    exact absurd hf (by simp)
  | case3 acc =>
    intro ks res s hf _ k _
    have ef : formatAux data [lbrace] none acc =
        .error "ValueError: single brace" := rfl
    rw [ef] at hf
    exact absurd hf (by simp)
  | case4 acc hne =>
    intro ks res s hf _ k _
    have ef : formatAux data [rbrace] none acc =
        .error "ValueError: single brace" := rfl
    rw [ef] at hf
    exact absurd hf (by simp)
  | case5 c acc h1 h2 =>
    intro ks res s _ hr k hk
    have er : refKeysAux [c] none ks =
        (if c = lbrace then none
         else if c = rbrace then none
         else some ks.reverse) := rfl
    rw [er, if_neg h1, if_neg h2] at hr
    injection hr with hr
    subst hr
    exact Or.inl (by simpa using hk)
  | case6 cs acc ih =>
    intro ks res s hf hr k hk
    have ef : formatAux data (lbrace :: lbrace :: cs) none acc =
        formatAux data cs none (lbrace :: acc) := rfl
    have er : refKeysAux (lbrace :: lbrace :: cs) none ks =
        refKeysAux cs none ks := rfl
    rw [ef] at hf
    rw [er] at hr
    exact ih ks res s hf hr k hk
  | case7 d cs acc hd ih =>
    intro ks res s hf hr k hk
    have ef : formatAux data (lbrace :: d :: cs) none acc =
        (if d = lbrace then formatAux data cs none (lbrace :: acc)
         else formatAux data (d :: cs) (some []) acc) := rfl
    have er : refKeysAux (lbrace :: d :: cs) none ks =
        (if d = lbrace then refKeysAux cs none ks
         else refKeysAux (d :: cs) (some []) ks) := rfl
    rw [ef, if_neg hd] at hf
    rw [er, if_neg hd] at hr
    exact ih ks res s hf hr k hk
  | case8 cs acc hne ih =>
    intro ks res s hf hr k hk
    have ef : formatAux data (rbrace :: rbrace :: cs) none acc =
        formatAux data cs none (rbrace :: acc) := rfl
    have er : refKeysAux (rbrace :: rbrace :: cs) none ks =
        refKeysAux cs none ks := rfl
    rw [ef] at hf
    rw [er] at hr
    exact ih ks res s hf hr k hk
  | case9 d cs acc hd hne =>
    intro ks res s hf _ k _
    have ef : formatAux data (rbrace :: d :: cs) none acc =
        (if d = rbrace then formatAux data cs none (rbrace :: acc)
         else .error "ValueError: single brace") := rfl
    rw [ef, if_neg hd] at hf
    exact absurd hf (by simp)
  | case10 c d cs acc h1 h2 ih =>
    intro ks res s hf hr k hk
    have ef : formatAux data (c :: d :: cs) none acc =
        (if c = lbrace then
          (if d = lbrace then formatAux data cs none (lbrace :: acc)
           else formatAux data (d :: cs) (some []) acc)
         else if c = rbrace then
          (if d = rbrace then formatAux data cs none (rbrace :: acc)
           else .error "ValueError: single brace")
         else formatAux data (d :: cs) none (c :: acc)) := rfl
    have er : refKeysAux (c :: d :: cs) none ks =
        (if c = lbrace then
          (if d = lbrace then refKeysAux cs none ks
           else refKeysAux (d :: cs) (some []) ks)
         else if c = rbrace then
          (if d = rbrace then refKeysAux cs none ks
           else none)
         else refKeysAux (d :: cs) none ks) := rfl
    rw [ef, if_neg h1, if_neg h2] at hf
    rw [er, if_neg h1, if_neg h2] at hr
    exact ih ks res s hf hr k hk
  | case11 cs kacc acc v hv ih =>
    intro ks res s hf hr k hk
    have ef : formatAux data (rbrace :: cs) (some kacc) acc =
        (match data.lookup (String.mk kacc.reverse) with
         | some v => formatAux data cs none (v.data.reverse ++ acc)
         | none =>
           .error (String.append "KeyError: " (String.mk kacc.reverse))) := by
      cases cs <;> rfl
    have er : refKeysAux (rbrace :: cs) (some kacc) ks =
        refKeysAux cs none (String.mk kacc.reverse :: ks) := by
      cases cs <;> rfl
    rw [ef, hv] at hf
    rw [er] at hr
    cases ih (String.mk kacc.reverse :: ks) res s hf hr k hk with
    | inl hin =>
      cases List.mem_cons.mp hin with
      | inl heq =>
        subst heq
        exact Or.inr (by simp [hv])
      | inr htail => exact Or.inl htail
    | inr hsome => exact Or.inr hsome
  | case12 cs kacc acc hv =>
    intro ks res s hf _ k _
    have ef : formatAux data (rbrace :: cs) (some kacc) acc =
        (match data.lookup (String.mk kacc.reverse) with
         | some v => formatAux data cs none (v.data.reverse ++ acc)
         | none =>
           .error (String.append "KeyError: " (String.mk kacc.reverse))) := by
      cases cs <;> rfl
    rw [ef, hv] at hf
    exact absurd hf (by simp)
  | case13 c cs kacc acc hc ih =>
    intro ks res s hf hr k hk
    have ef : formatAux data (c :: cs) (some kacc) acc =
        (if c = rbrace then
          (match data.lookup (String.mk kacc.reverse) with
           | some v => formatAux data cs none (v.data.reverse ++ acc)
           | none =>
             .error (String.append "KeyError: " (String.mk kacc.reverse)))
         else formatAux data cs (some (c :: kacc)) acc) := by
      cases cs <;> rfl
    have er : refKeysAux (c :: cs) (some kacc) ks =
        (if c = rbrace then
          refKeysAux cs none (String.mk kacc.reverse :: ks)
         else refKeysAux cs (some (c :: kacc)) ks) := by
      cases cs <;> rfl
    rw [ef, if_neg hc] at hf
    rw [er, if_neg hc] at hr
    exact ih ks res s hf hr k hk

/-- **C9.** If the selected response template of the first matching intent
references a substitution key missing from the shared data mapping, the call
produces an error (a surfaced configuration failure) instead of any response
text — in particular no text containing the literal placeholder is ever
delivered. -/
theorem render_missing_key_errors (sw : List String) (intents : List Intent)
    (data : List (String × String)) (choose : List String → String)
    (ctx : Ctx) (input : String) (i : Intent) (k : String) (ks : List String)
    (hfind : intents.find? (fun j => intentEligible ctx j &&
      intentMatches sw (preprocess_text sw input) j) = some i)
    (hkeys : refKeys (choose i.responses) = some ks)
    (hk : k ∈ ks) (hmiss : data.lookup k = none) :
    (get_response sw intents data choose ctx input).1.isOk = false := by
  have h := get_response_loop_eq_find sw data choose
    (preprocess_text sw input) ctx intents
  have h1 : (get_response sw intents data choose ctx input).1 =
      pyFormat (choose i.responses) data := by
    unfold get_response
    rw [h, hfind]
  rw [h1]
  unfold pyFormat
  cases hf : formatAux data (choose i.responses).data none [] with
  | error e => rfl
  | ok s =>
    exfalso
    unfold refKeys at hkeys
    cases formatAux_ok_keys data (choose i.responses).data none [] [] ks s
        hf hkeys k hk with
    | inl hin => simp at hin
    | inr hsome => rw [hmiss] at hsome; simp at hsome

def c9Intents : List Intent :=
  [⟨"apresentacao", ["oi"], ["{menu}"], none, none⟩]

/-- Witness for C9: a template referencing `menu` with an empty data mapping
yields an error result, not a rendered response. -/
theorem render_missing_key_errors_witness :
    (get_response [] c9Intents [] chooseHead [] "oi").1.isOk = false :=
  render_missing_key_errors [] c9Intents [] chooseHead [] "oi"
    ⟨"apresentacao", ["oi"], ["{menu}"], none, none⟩ "menu" ["menu"]
    (by rfl) (by rfl) (by decide) (by rfl)

def c10Intents : List Intent :=
  [⟨"comprar", ["quero"], ["{menu}"], none, some ["comprar"]⟩]

/-- **C10.** The context update is not atomic with rendering: on this
concrete configuration the matched intent's `context_set` replacement is
applied before the template is rendered, so the call errors on the missing
substitution key while the context has already been replaced by
`{"comprar"}` (the pre-existing flag `"antigo"` is gone). -/
theorem context_changes_on_render_error :
    (get_response [] c10Intents [] chooseHead ["antigo"] "quero").1.isOk
        = false ∧
    (get_response [] c10Intents [] chooseHead ["antigo"] "quero").2
        = ["comprar"] ∧
    "antigo" ∉ (get_response [] c10Intents [] chooseHead ["antigo"] "quero").2
    := by
  refine ⟨by rfl, by rfl, by decide⟩

/-! ### Claim C5: the flavor-index invariant -/

/-- **C5.** Every entry that `build_flavor_index` produces has keywords free
of stopwords and of the literal marker words `bolo`/`bolos`; its phrase is
the trimmed remainder after the `bolo(s) de` pattern when the normalized
product name matches it (via `re.search`) and the entire normalized name
otherwise; and its keywords are exactly the word tokens of the phrase minus
those exclusions. -/
theorem build_flavor_index_spec : ∀ (sw : List String)
    (products : List Product) (e : FlavorEntry),
    e ∈ build_flavor_index sw products →
    (∀ k ∈ e.keywords, k ∉ sw ∧ k ≠ "bolo" ∧ k ≠ "bolos") ∧
    (∃ p ∈ products, e.original = p.nome ∧
      e.phrase = (match boloSearch (normalize p.nome) with
        | some g => pyStrip g
        | none => normalize p.nome) ∧
      e.keywords = ((reWordTokens e.phrase).filter
        (fun t => !sw.contains t && t != "bolo" && t != "bolos")).dedup) := by
  intro sw products e he
  unfold build_flavor_index at he
  rw [List.mem_map] at he
  obtain ⟨p, hp, rfl⟩ := he
  constructor
  · intro k hk
    rw [List.mem_dedup, List.mem_filter] at hk
    obtain ⟨_, hcond⟩ := hk
    have hA : (!sw.contains k) = true :=
      (Bool.and_eq_true_iff.mp (Bool.and_eq_true_iff.mp hcond).1).1
    have hB : (k != "bolo") = true :=
      (Bool.and_eq_true_iff.mp (Bool.and_eq_true_iff.mp hcond).1).2
    have hC : (k != "bolos") = true := (Bool.and_eq_true_iff.mp hcond).2
    have hfalse : sw.contains k = false := by simpa using hA
    refine ⟨fun hmem => ?_, bne_iff_ne.mp hB, bne_iff_ne.mp hC⟩
    have htrue : sw.contains k = true := List.elem_iff.mpr hmem
    rw [htrue] at hfalse
    exact Bool.noConfusion hfalse
  · exact ⟨p, hp, rfl, rfl, rfl⟩

/-- Witness for C5 at a concrete catalog: the keyword `doce` of the entry
built from "Bolo de Doce de Leite" avoids the stopword list and the marker
words. -/
theorem build_flavor_index_spec_witness :
    "doce" ∉ (["de"] : List String) ∧ "doce" ≠ "bolo" ∧ "doce" ≠ "bolos" :=
  (build_flavor_index_spec ["de"] [⟨"Bolo de Doce de Leite"⟩]
      ⟨"Bolo de Doce de Leite", "doce de leite", ["doce", "leite"]⟩
      (by decide)).1 "doce" (by decide)

/-! ### Claim C2: the quantity extractor -/

/-- Minimum of a list of naturals, `none` on the empty list. -/
def listMin? : List Nat → Option Nat
  | [] => none
  | n :: ns =>
    match listMin? ns with
    | none => some n
    | some m => some (min n m)

theorem listMin?_mem : ∀ (l : List Nat) (m : Nat), listMin? l = some m →
    m ∈ l := by
  intro l
  induction l with
  | nil => intro m h; simp [listMin?] at h
  | cons n ns ih =>
    intro m h
    simp only [listMin?] at h
    cases hm : listMin? ns with
    | none =>
      rw [hm] at h
      injection h with h
      subst h
      exact List.mem_cons_self _ _
    | some m2 =>
      rw [hm] at h
      injection h with h
      subst h
      cases min_choice n m2 with
      | inl hmin => rw [hmin]; exact List.mem_cons_self _ _
      | inr hmin => rw [hmin]; exact List.mem_cons_of_mem _ (ih m2 hm)

/-- Scanning a value-sorted word table for the first whole-word hit returns
the minimum value among all hits: the source's insertion-order scan realizes
the specification's "ascending numeric-value order". -/
theorem find?_sorted_min (t : String) :
    ∀ l : List (String × Nat), l.Pairwise (fun a b => a.2 ≤ b.2) →
      ((l.find? (fun p => wholeWord p.1 t)).map (fun p => p.2)) =
        listMin? ((l.filter (fun p => wholeWord p.1 t)).map (fun p => p.2))
    := by
  intro l
  induction l with
  | nil => intro _; rfl
  | cons q rest ih =>
    intro hpw
    rw [List.pairwise_cons] at hpw
    obtain ⟨hhead, htail⟩ := hpw
    by_cases hw : wholeWord q.1 t
    · have hw' : (fun p => wholeWord p.1 t) q = true := hw
      rw [@List.find?_cons_of_pos _ (fun p => wholeWord p.1 t) q rest hw',
        @List.filter_cons_of_pos _ (fun p => wholeWord p.1 t) q rest hw']
      simp only [List.map_cons, Option.map_some]
      cases hm : listMin? ((rest.filter (fun p => wholeWord p.1 t)).map
          (fun p => p.2)) with
      | none => simp [listMin?, hm]
      | some m =>
        have hmem := listMin?_mem _ m hm
        rw [List.mem_map] at hmem
        obtain ⟨q2, hq2, hq2m⟩ := hmem
        have hle : q.2 ≤ m := by
          rw [← hq2m]
          exact hhead q2 (List.mem_of_mem_filter hq2)
        simp [listMin?, hm, Nat.min_def, hle]
    · have hw' : ¬(fun p => wholeWord p.1 t) q = true := hw
      rw [@List.find?_cons_of_neg _ (fun p => wholeWord p.1 t) q rest hw',
        @List.filter_cons_of_neg _ (fun p => wholeWord p.1 t) q rest hw']
      exact ih htail

theorem digitHere_digits : ∀ (prev : Option Char) (c : Char) (cs : List Char)
    (g : String), digitHere prev c cs = some g →
    (!g.data.isEmpty && g.data.all Char.isDigit) = true := by
  intro prev c cs g h
  unfold digitHere at h
  split at h
  · next hb =>
    have hc : c.isDigit = true := (Bool.and_eq_true_iff.mp hb).2
    split at h
    · injection h with h
      subst h
      simp [hc]
    · next d rest =>
      split at h
      · next hd =>
        split at h
        · injection h with h
          subst h
          simp [hc, hd]
        · split at h
          · exact absurd h (by simp)
          · injection h with h
            subst h
            simp [hc, hd]
      · split at h
        · exact absurd h (by simp)
        · injection h with h
          subst h
          simp [hc]
  · exact absurd h (by simp)

theorem digitGroupAux_digits : ∀ (cs : List Char) (prev : Option Char)
    (g : String), digitGroupAux prev cs = some g →
    (!g.data.isEmpty && g.data.all Char.isDigit) = true := by
  intro cs
  induction cs with
  | nil => intro prev g h; exact absurd h (by simp [digitGroupAux])
  | cons c cs ih =>
    intro prev g h
    have e : digitGroupAux prev (c :: cs) =
        (match digitHere prev c cs with
         | some g => some g
         | none => digitGroupAux (some c) cs) := rfl
    rw [e] at h
    cases hh : digitHere prev c cs with
    | some g2 =>
      rw [hh] at h
      injection h with h
      subst h
      exact digitHere_digits prev c cs g2 hh
    | none =>
      rw [hh] at h
      exact ih (some c) g h

theorem pyInt?_of_digits (g : String)
    (h : (!g.data.isEmpty && g.data.all Char.isDigit) = true) :
    pyInt? g = some (natOfDigits g) := by
  unfold pyInt?
  rw [if_pos h]

/-- **C2.** `extrair_quantidade` applies its rules in strict priority order
with first match winning: the half-dozen idiom gives 6, the one-dozen idiom
gives 12, then the first standalone 1-2 digit token gives its base-10 value,
and finally the spelled-number table acts as an ascending-value scan — the
result is the minimum value whose word occurs whole-word — with `none` when
nothing matches; including the four concrete behaviours named by the claim.
-/
theorem extrair_quantidade_spec :
    (∀ t, extrair_quantidade t =
      (if meiaDuzia t then some 6
       else if umaDuzia t then some 12
       else
         match digitGroupSearch t with
         | some g => some (natOfDigits g)
         | none => listMin? ((num_words.filter
             (fun p => wholeWord p.1 t)).map (fun p => p.2)))) ∧
    extrair_quantidade "quero meia duzia de bolos" = some 6 ∧
    extrair_quantidade "quero uma duzia" = some 12 ∧
    extrair_quantidade "quero 12 bolos" = some 12 ∧
    extrair_quantidade "dez" = some 10 := by
  refine ⟨?_, by rfl, by rfl, by rfl, by rfl⟩
  intro t
  unfold extrair_quantidade
  by_cases h1 : meiaDuzia t
  · simp [h1]
  · by_cases h2 : umaDuzia t
    · simp [h1, h2]
    · simp only [h1, h2, if_false]
      cases hd : digitGroupSearch t with
      | some g =>
        simp [pyInt?_of_digits g (digitGroupAux_digits t.data none g hd)]
      | none =>
        have hpw : num_words.Pairwise (fun a b => a.2 ≤ b.2) := by decide
        simpa using find?_sorted_min t num_words hpw

/-! ### Claim C1: the flavor extractor -/

/-- The score computed inside the loop (with its truthiness guards) equals
the score as the specification words it: the guards only short-circuit cases
whose contribution is `0` anyway. -/
theorem saborScoreSrc_eq (item : FlavorEntry) (t : String) :
    saborScoreSrc item t ((reWordTokens t).dedup) = saborScore item t := by
  unfold saborScoreSrc saborScore
  have h1 : (if !item.phrase.isEmpty && strContains t item.phrase
        then item.phrase.length else 0)
      = (if strContains t item.phrase then item.phrase.length else 0) := by
    by_cases hp : item.phrase.isEmpty
    · have hemp : item.phrase = "" := (String.isEmpty_iff item.phrase).mp hp
      simp [hp, hemp]
    · simp [hp]
  have h2 : (if !item.keywords.isEmpty
        then (item.keywords.dedup.filter
          (fun k => ((reWordTokens t).dedup).contains k)).length * 3 else 0)
      = 3 * (item.keywords.dedup.filter
          (fun k => ((reWordTokens t).dedup).contains k)).length := by
    by_cases hk : item.keywords.isEmpty
    · have hemp : item.keywords = [] := by simpa using hk
      simp [hemp]
    · simp [hk, Nat.mul_comm]
  rw [h1, h2]

/-- The `best`/`best_score` loop computes the first maximum under strict
`>` updates: starting from state `(b0, s0)`, either no element beats `s0`
and the state is unchanged, or the result is the first element achieving
the maximum score. -/
theorem saborLoop_spec (t : String) (tokens : List String) :
    ∀ (l : List FlavorEntry) (b0 : Option FlavorEntry) (s0 : Nat),
      (saborLoop t tokens l b0 s0 = (b0, s0) ∧
        ∀ x ∈ l, saborScoreSrc x t tokens ≤ s0) ∨
      (∃ pre e post, l = pre ++ e :: post ∧
        (∀ x ∈ pre, saborScoreSrc x t tokens < saborScoreSrc e t tokens) ∧
        s0 < saborScoreSrc e t tokens ∧
        (∀ x ∈ post, saborScoreSrc x t tokens ≤ saborScoreSrc e t tokens) ∧
        saborLoop t tokens l b0 s0 = (some e, saborScoreSrc e t tokens))
    := by
  intro l
  induction l with
  | nil => intro b0 s0; exact Or.inl ⟨rfl, by simp⟩
  | cons a l ih =>
    intro b0 s0
    have estep : saborLoop t tokens (a :: l) b0 s0 =
        (if s0 < saborScoreSrc a t tokens
         then saborLoop t tokens l (some a) (saborScoreSrc a t tokens)
         else saborLoop t tokens l b0 s0) := rfl
    by_cases hlt : s0 < saborScoreSrc a t tokens
    · rw [estep, if_pos hlt]
      cases ih (some a) (saborScoreSrc a t tokens) with
      | inl hcase =>
        obtain ⟨heq, hall⟩ := hcase
        exact Or.inr ⟨[], a, l, rfl, by simp, hlt, hall, heq⟩
      | inr hcase =>
        obtain ⟨pre, e, post, hsplit, hpre, hs, hpost, heq⟩ := hcase
        right
        refine ⟨a :: pre, e, post, by simp [hsplit], ?_, lt_trans hlt hs,
          hpost, heq⟩
        intro x hx
        cases List.mem_cons.mp hx with
        | inl hxa => subst hxa; exact hs
        | inr hxp => exact hpre x hxp
    · rw [estep, if_neg hlt]
      cases ih b0 s0 with
      | inl hcase =>
        obtain ⟨heq, hall⟩ := hcase
        left
        refine ⟨heq, ?_⟩
        intro x hx
        cases List.mem_cons.mp hx with
        | inl hxa => subst hxa; exact Nat.le_of_not_lt hlt
        | inr hxl => exact hall x hxl
      | inr hcase =>
        obtain ⟨pre, e, post, hsplit, hpre, hs, hpost, heq⟩ := hcase
        right
        refine ⟨a :: pre, e, post, by simp [hsplit], ?_, hs, hpost, heq⟩
        intro x hx
        cases List.mem_cons.mp hx with
        | inl hxa => subst hxa; exact lt_of_le_of_lt (Nat.le_of_not_lt hlt) hs
        | inr hxp => exact hpre x hxp

/-- **C1.** `extrair_sabor` scores every entry as (phrase length if the
phrase is a contiguous substring of the input, else 0) plus 3 times the
number of entry keywords among the input's word tokens; it returns the
entry with the maximum score under strict `>` comparison, so the first
entry in catalog order wins ties, as `{produto, sabor}`; and it returns
`none` exactly when no entry scores above 0. -/
theorem extrair_sabor_spec : ∀ (idx : List FlavorEntry) (t : String),
    (extrair_sabor idx t = none ∧ ∀ e ∈ idx, saborScore e t = 0) ∨
    (∃ pre e post, idx = pre ++ e :: post ∧
      extrair_sabor idx t = some ⟨e.original, e.phrase⟩ ∧
      0 < saborScore e t ∧
      (∀ x ∈ pre, saborScore x t < saborScore e t) ∧
      (∀ x ∈ post, saborScore x t ≤ saborScore e t)) := by
  intro idx t
  have edef : extrair_sabor idx t =
      ((match saborLoop t ((reWordTokens t).dedup) idx none 0 with
        | (some best, bs) =>
          if 0 < bs then some ⟨best.original, best.phrase⟩ else none
        | (none, _) => none) : Option SaborInfo) := rfl
  cases saborLoop_spec t ((reWordTokens t).dedup) idx none 0 with
  | inl hcase =>
    obtain ⟨heq, hall⟩ := hcase
    left
    constructor
    · rw [edef, heq]
    · intro e he
      have hle := hall e he
      rw [saborScoreSrc_eq] at hle
      exact Nat.le_zero.mp hle
  | inr hcase =>
    obtain ⟨pre, e, post, hsplit, hpre, hs, hpost, heq⟩ := hcase
    right
    refine ⟨pre, e, post, hsplit, ?_, ?_, ?_, ?_⟩
    · rw [edef, heq]
      show (if 0 < saborScoreSrc e t ((reWordTokens t).dedup)
            then some (SaborInfo.mk e.original e.phrase) else none) =
        some (SaborInfo.mk e.original e.phrase)
      rw [if_pos hs]
    · rw [← saborScoreSrc_eq]
      exact hs
    · intro x hx
      have h := hpre x hx
      rwa [saborScoreSrc_eq, saborScoreSrc_eq] at h
    · intro x hx
      have h := hpost x hx
      rwa [saborScoreSrc_eq, saborScoreSrc_eq] at h

end Chatbot
